import Mathlib

/-!
Shallow embedding of the ssb-db2 ingestion/validation pipeline (src/db.js)
and of the FullMentions index plugin (embedded in src/README.md), together
with proofs about the frozen claims on this code.

Conventions of the embedding:
* JavaScript callback results `cb(err, data)` become explicit return values
  (`Option`/`Except` components of the result tuple).
* The append-only log is a `List LogRecord`; a record's global sequence is
  its position in the list.
* The full-scan base index is lazy (src/db.js lines 49-56 warn about exactly
  this): its state is the count `indexedCount` of log records it has
  incorporated, and index lookups consult only that processed portion of the
  log.  An index catch-up step (`Db.catchUp`) advances the watermark; it is
  the event that `fullIndex.seq` observers see.
* Cryptographic primitives are black boxes: `keys.unbox(·, config.keys.private)`
  is a parameter `unbox : String → Option String`, and signature verification
  is abstracted by the boolean field `signatureValid` of a message.
* The code of `ssb-validate` (`validate.append`, `validate.appendOOO`,
  `validate.initial`) and of the collaborating modules `./log`,
  `./indexes/full-scan` and `jitdb` is not part of this repository's sources;
  those parts are modelled from the spec and marked as such in doc comments.
-/

namespace SsbDb2

/-- Validation error taxonomy from the spec (section 7). -/
inductive ValidationError
  | SequenceGap
  | PreviousMismatch
  | TimestampRegression
  | BadSignature
  | MalformedMessage
deriving DecidableEq

/-- Storage error taxonomy from the spec (section 7).  `NotFound` covers the
`seq is null!` error that `del` in src/db.js produces when the base index
cannot resolve an identity. -/
inductive StorageError
  | NotFound
deriving DecidableEq

/-- Message content: in JS either an object (plain) or a string, a string
being an encrypted box (src/db.js line 64 tests `typeof msg.content === 'string'`). -/
inductive Content
  | plain (obj : String)
  | cipher (box : String)
deriving DecidableEq

/-- The `meta` object attached by `add` when a message was decrypted at rest
(src/db.js lines 70-75): `{ private: "true", original: { content: cyphertext } }`. -/
structure MetaInfo where
  privateTag : String
  originalContent : String
deriving DecidableEq

/-- A feed message.  `signatureValid` abstracts black-box signature
verification; `meta` is absent on ingested messages and added by the
decryption-at-rest transform. -/
structure Msg where
  author : String
  sequence : Nat
  previous : Option String
  timestamp : Nat
  content : Content
  signatureValid : Bool
  meta : Option MetaInfo := none
deriving DecidableEq

/-- Canonical encoding of content, used by the identity hash model. -/
def encodeContent : Content → String
  | Content.plain obj => "p:" ++ obj
  | Content.cipher box => "c:" ++ box

/-- Identity of a message: `'%' + hash(JSON.stringify(msg, null, 2))`
(src/db.js lines 13-15).  The black-box hash is modelled by the canonical
encoding itself; all that the pipeline uses is that it is a deterministic
function of the message fields. -/
def getId (msg : Msg) : String :=
  "%" ++ msg.author ++ "|" ++ toString msg.sequence ++ "|" ++
    (match msg.previous with
     | none => "null"
     | some p => p) ++ "|" ++
    toString msg.timestamp ++ "|" ++ encodeContent msg.content

/-- Per-author chain state, as restored in src/db.js lines 87-98:
`{ id, timestamp, sequence, queue }`. -/
structure FeedState where
  id : Option String
  timestamp : Nat
  sequence : Nat
  queue : List Msg
deriving DecidableEq

/-- The aggregate validation state: author → FeedState, plus the staged
queue used by `publish`.  The JS `state.error` slot is modelled out of band,
as the second component returned by each transition function. -/
structure ValidationState where
  feeds : List (String × FeedState)
  queue : List Msg
deriving DecidableEq

/-- Lookup of `state.feeds[author]`; `isSome` of this is the JS membership
test `author in state.feeds` (src/db.js line 168). -/
def lookupFeed (s : ValidationState) (author : String) : Option FeedState :=
  (s.feeds.find? (fun p => p.1 == author)).map Prod.snd

/-- Assignment `state.feeds[author] = fs`. -/
def setFeed (s : ValidationState) (author : String) (fs : FeedState) : ValidationState :=
  if (s.feeds.find? (fun p => p.1 == author)).isSome then
    { s with feeds := s.feeds.map (fun p => if p.1 == author then (author, fs) else p) }
  else
    { s with feeds := s.feeds ++ [(author, fs)] }

namespace validate

/-- Modelled from the spec: `validate.initial()` of ssb-validate (not in
src/) — the empty validation state, no feeds, empty queue. -/
def initial : ValidationState := ⟨[], []⟩

/-- Modelled from the spec: ssb-validate's strict `append` (section 4.2,
code not in src/).  For a KNOWN author, valid iff
`sequence = latestSequence + 1`, `previous = latestIdentity`,
`timestamp ≥ latestTimestamp` and the signature verifies; on success the
FeedState advances to the candidate, on failure the corresponding
ValidationError is emitted and the state is returned unmodified (atomic per
attempt).  For an author with no FeedState yet, valid iff this is the
chain-initial message (`sequence = 1`, `previous = null`, good signature),
which creates the FeedState — this is how states reachable through append
alone cover sequences `1..latestSequence`. -/
def append (s : ValidationState) (m : Msg) : ValidationState × Option ValidationError :=
  match lookupFeed s m.author with
  | some fs =>
    if m.sequence ≠ fs.sequence + 1 then (s, some ValidationError.SequenceGap)
    else if m.previous ≠ fs.id then (s, some ValidationError.PreviousMismatch)
    else if m.timestamp < fs.timestamp then (s, some ValidationError.TimestampRegression)
    else if ¬ m.signatureValid then (s, some ValidationError.BadSignature)
    else (setFeed s m.author ⟨some (getId m), m.timestamp, m.sequence, []⟩, none)
  | none =>
    if m.sequence ≠ 1 then (s, some ValidationError.SequenceGap)
    else if m.previous ≠ none then (s, some ValidationError.PreviousMismatch)
    else if ¬ m.signatureValid then (s, some ValidationError.BadSignature)
    else (setFeed s m.author ⟨some (getId m), m.timestamp, m.sequence, []⟩, none)

/-- Modelled from the spec: ssb-validate's `appendOOO` (section 4.2, code
not in src/).  Verifies signature and internal well-formedness only — no
chain-continuity check against prior state.  A sequence must be a positive
integer, and a sequence-1 message must have `previous = null`.  Per the
spec's edge case, an author becomes KNOWN the first time a message from it
is admitted by either append path, but a feed whose sequence-1 message was
never seen must not be promoted into KNOWN continuity-tracked state: hence
only an admitted sequence-1 message from an unknown author creates a
FeedState; any other admitted message leaves the feeds untouched. -/
def appendOOO (s : ValidationState) (m : Msg) : ValidationState × Option ValidationError :=
  if m.sequence = 0 then (s, some ValidationError.MalformedMessage)
  else if m.sequence = 1 ∧ m.previous ≠ none then (s, some ValidationError.MalformedMessage)
  else if ¬ m.signatureValid then (s, some ValidationError.BadSignature)
  else if m.sequence = 1 ∧ lookupFeed s m.author = none then
    (setFeed s m.author ⟨some (getId m), m.timestamp, m.sequence, []⟩, none)
  else (s, none)

end validate

/-- A record of the append-only log: message identity (key), stored message
value, and a tombstone bit. -/
structure LogRecord where
  key : String
  value : Msg
  deleted : Bool
deriving DecidableEq

/-- Database state: the append-only log, the full-scan base index's
watermark (`fullIndex.seq.value`, modelled as the count of log records the
index has incorporated; `log.since.value` corresponds to `records.length`),
and the set of authors with a base-index `latest` entry. -/
structure Db where
  records : List LogRecord
  indexedCount : Nat
  latestAuthors : List String
deriving DecidableEq

/-- Modelled from the spec: `fullIndex.getDataFromKey` (indexes/full-scan is
not in src/).  A content lookup by identity over the portion of the log the
index has processed; tombstoned records are reported absent. -/
def Db.getDataFromKey (db : Db) (id : String) : Option Msg :=
  ((db.records.take db.indexedCount).find? (fun r => r.key == id && !r.deleted)).map
    LogRecord.value

/-- Modelled from the spec: `fullIndex.keyToSeq` (indexes/full-scan is not
in src/).  Resolves an identity to its global log sequence, over the portion
of the log the index has processed; tombstoned records remain addressable by
sequence. -/
def Db.keyToSeq (db : Db) (id : String) : Option Nat :=
  (db.records.take db.indexedCount).findIdx? (fun r => r.key == id)

/-- Modelled from the spec: one base-index catch-up event — the index
incorporates all log records written so far, advancing its watermark to the
log's last sequence and recording a `latest` entry for every author it saw. -/
def Db.catchUp (db : Db) : Db :=
  { db with
    indexedCount := db.records.length
    latestAuthors :=
      (db.records.drop db.indexedCount).foldl
        (fun acc r => if acc.contains r.value.author then acc else acc ++ [r.value.author])
        db.latestAuthors }

/-- Tombstoning of the record at a given sequence (`log.del(seq)` of the log
module, which is not in src/; modelled from the spec: the tombstone bit is
set in place, the sequence slot is preserved). -/
def markDeleted : List LogRecord → Nat → List LogRecord
  | [], _ => []
  | r :: rs, 0 => { r with deleted := true } :: rs
  | r :: rs, n + 1 => r :: markDeleted rs n

/-- The decryption-at-rest transform inside `add` (src/db.js lines 62-77):
if the content is a string, try to unbox it with the local private key; on
success store the plaintext as content and keep the original ciphertext in
`meta` tagged private; on failure (or non-string content) leave the message
unchanged. -/
def unboxTransform (unbox : String → Option String) (m : Msg) : Msg :=
  match m.content with
  | Content.cipher box =>
    match unbox box with
    | some decrypted =>
      { m with content := Content.plain decrypted, meta := some ⟨"true", box⟩ }
    | none => m
  | Content.plain _ => m

/-- The function `add` of src/db.js (lines 46-82): compute the identity; if
the base index resolves it, return the existing stored value without
touching the log; otherwise apply the decryption-at-rest transform and
append to the log.  Note that the append does not advance the lazy index's
watermark — that is precisely the race the comment at src/db.js lines 49-56
warns about. -/
def add (unbox : String → Option String) (db : Db) (m : Msg) : Db × Msg :=
  let id := getId m
  match db.getDataFromKey id with
  | some stored => (db, stored)
  | none =>
    let m2 := unboxTransform unbox m
    ({ db with records := db.records ++ [⟨id, m2, false⟩] }, m2)

/-- The strict branch of `validateAndAdd` (src/db.js lines 173-179 when the
author is known): run `validate.append` on the shared state; on error abort
without calling `add`, otherwise `add` the message. -/
def appendPath (unbox : String → Option String) (s : ValidationState) (db : Db)
    (m : Msg) : ValidationState × Db × Except ValidationError Msg :=
  match validate.append s m with
  | (s2, some e) => (s2, db, Except.error e)
  | (s2, none) =>
    let r := add unbox db m
    (s2, r.1, Except.ok r.2)

/-- The out-of-order branch of `validateAndAdd` (src/db.js lines 171-179
when the author is unknown): run `validate.appendOOO` on the shared state;
on error abort without calling `add`, otherwise `add` the message. -/
def oooPath (unbox : String → Option String) (s : ValidationState) (db : Db)
    (m : Msg) : ValidationState × Db × Except ValidationError Msg :=
  match validate.appendOOO s m with
  | (s2, some e) => (s2, db, Except.error e)
  | (s2, none) =>
    let r := add unbox db m
    (s2, r.1, Except.ok r.2)

/-- The function `validateAndAdd` of src/db.js (lines 167-185): the author
is KNOWN iff it has an entry in `state.feeds`; a known author is routed
through the strict append path, an unknown one through the out-of-order
path. -/
def validateAndAdd (unbox : String → Option String) (s : ValidationState) (db : Db)
    (m : Msg) : ValidationState × Db × Except ValidationError Msg :=
  let knownAuthor := (lookupFeed s m.author).isSome
  if knownAuthor then appendPath unbox s db m else oooPath unbox s db m

/-- The function `validateAndAddOOO` of src/db.js (lines 151-165): validate
against a fresh local state (`var state = validate.initial()` shadows the
shared one); on error abort, otherwise `add`.  The shared ValidationState is
passed through untouched. -/
def validateAndAddOOO (unbox : String → Option String) (s : ValidationState) (db : Db)
    (m : Msg) : ValidationState × Db × Except ValidationError Msg :=
  match validate.appendOOO validate.initial m with
  | (_, some e) => (s, db, Except.error e)
  | (_, none) =>
    let r := add unbox db m
    (s, r.1, Except.ok r.2)

/-- The function `del` of src/db.js (lines 109-116): resolve the identity to
a log sequence through the base index; if unresolved fail (`seq is null!`,
the NotFound of the spec's taxonomy) without touching the log, otherwise
tombstone that sequence. -/
def del (db : Db) (key : String) : Db × Option StorageError :=
  match db.keyToSeq key with
  | none => (db, some StorageError.NotFound)
  | some seq => ({ db with records := markDeleted db.records seq }, none)

/-- Sequential per-record deletion of a list of keys, stopping at the first
failure — the `push.asyncMap(del)` / `push.collect` pipeline of `deleteFeed`
(src/db.js lines 128-140). -/
def delKeys (db : Db) : List String → Db × Option StorageError
  | [] => (db, none)
  | k :: ks =>
    match del db k with
    | (db2, some e) => (db2, some e)
    | (db2, none) => delKeys db2 ks

/-- Modelled from the spec: the jitdb author query of `deleteFeed`
(src/db.js lines 120-127; jitdb is an external collaborator).  Returns the
keys of every live log record authored by the feed (tombstoned records have
no author field to seek). -/
def authorKeys (db : Db) (feedId : String) : List String :=
  (db.records.filter (fun r => r.value.author == feedId && !r.deleted)).map LogRecord.key

/-- The function `deleteFeed` of src/db.js (lines 118-143): enumerate the
author's records, tombstone each one individually; only when the aggregate
reports no error are `state.feeds[feedId]` and the base-index `latest` entry
removed. -/
def deleteFeed (s : ValidationState) (db : Db) (feedId : String) :
    ValidationState × Db × Option StorageError :=
  match delKeys db (authorKeys db feedId) with
  | (db2, some e) => (s, db2, some e)
  | (db2, none) =>
    ({ s with feeds := s.feeds.filter (fun p => p.1 != feedId) },
     { db2 with latestAuthors := db2.latestAuthors.filter (fun a => a != feedId) },
     none)

/-- The function `get` of src/db.js (lines 24-31): a plain (non-barrier)
content lookup through the base index; `none` is the NotFound outcome. -/
def get (db : Db) (id : String) : Option Msg :=
  db.getDataFromKey id

/-- The waiting loop of `getSync` (src/db.js lines 37-42): the registered
listener fires on every watermark-change event; each event carries the
index's new watermark.  On an event the listener re-checks
`fullIndex.seq.value === log.since.value`; at the first event where they are
equal it deregisters itself and performs the read — so the run produces the
list of reads actually performed. -/
def getSyncAwait (db : Db) (id : String) : List Nat → List (Option Msg)
  | [] => []
  | w :: ws =>
    if w = db.records.length then [get { db with indexedCount := w } id]
    else getSyncAwait db id ws

/-- The function `getSync` of src/db.js (lines 33-44): if the base index's
watermark already equals the log's last sequence, read immediately;
otherwise defer to the watermark-change listener loop.  `events` is the
trace of watermark values delivered while waiting. -/
def getSyncReads (db : Db) (id : String) (events : List Nat) : List (Option Msg) :=
  if db.indexedCount = db.records.length then [get db id]
  else getSyncAwait db id events

/-- Sequential validation of the ordered batch of `addTransaction` against a
scratch ValidationState, via the strict append transition; stops at the
first failure.  Part of the spec model of `addTransaction` below. -/
def validateOrderedBatch (s : ValidationState) :
    List Msg → ValidationState × Option ValidationError
  | [] => (s, none)
  | m :: ms =>
    match validate.append s m with
    | (s2, some e) => (s2, some e)
    | (s2, none) => validateOrderedBatch s2 ms

/-- Independent validation of the out-of-order batch of `addTransaction`:
each message is checked by `appendOOO` against a throwaway initial state;
stops at the first failure.  Part of the spec model of `addTransaction`
below. -/
def validateOOOBatch : List Msg → Option ValidationError
  | [] => none
  | m :: ms =>
    match validate.appendOOO validate.initial m with
    | (_, some e) => some e
    | (_, none) => validateOOOBatch ms

/-- The commit phase of `addTransaction`: append every record (after the
at-rest transform) to the log. -/
def commitBatch (unbox : String → Option String) (db : Db) (msgs : List Msg) : Db :=
  msgs.foldl
    (fun d m => { d with records := d.records ++ [⟨getId m, unboxTransform unbox m, false⟩] })
    db

/-- Modelled from the spec: `addTransaction(orderedMessages, oooMessages, cb)`
(section 4.3) — the function is described by the spec but absent from the
sources under src/.  The ordered set is validated sequentially against a
scratch copy of the live ValidationState, the OOO set independently against
throwaway states; only if every validation in both sets succeeds are all
records appended to the log and the live state replaced by the scratch copy;
any single validation failure aborts with no log mutation. -/
def addTransaction (unbox : String → Option String) (s : ValidationState) (db : Db)
    (ordered ooo : List Msg) : ValidationState × Db × Option ValidationError :=
  match validateOrderedBatch s ordered with
  | (_, some e) => (s, db, some e)
  | (scratch, none) =>
    match validateOOOBatch ooo with
    | some e => (s, db, some e)
    | none => (scratch, commitBatch unbox db (ordered ++ ooo), none)

/-!  Model of the FullMentions index plugin, whose source is embedded in
src/README.md (the `handleRecord` at issue).  The bipf binary encoding is an
out-of-scope collaborator: a record's value buffer is modelled as an already
located view of the fields that `handleRecord` seeks. -/

/-- A JavaScript value sitting in a mention's `link` slot: a string, or
something else (the code checks `typeof mention.link === 'string'`). -/
inductive JsVal
  | str (s : String)
  | other
deriving DecidableEq

/-- One element of the decoded `mentions` array. -/
structure Mention where
  link : Option JsVal
deriving DecidableEq

/-- The decoded `value.content.mentions` field of a record buffer: the seek
chain may fail at `value`, `content` or `mentions` (bipf.seekKey returning a
negative position), the decoded value may not be an array, or it is an array
of mentions. -/
inductive MentionsField
  | missing
  | notArray
  | arr (xs : List Mention)
deriving DecidableEq

/-- A record's value buffer as seen by FullMentions.handleRecord: the
decoded `key` string and the located `value.content.mentions` field. -/
structure RecBuffer where
  keyStr : String
  mentionsField : MentionsField
deriving DecidableEq

/-- A record handed to an index plugin: its log offset and its value buffer,
`none` when the record was deleted (tombstoned). -/
structure IndexRecord where
  offset : Nat
  value : Option RecBuffer
deriving DecidableEq

/-- One staged leveldb batch operation: a put of `seq` under the composite
key `[mention.link, shortKey]`. -/
structure BatchOp where
  link : String
  shortKey : String
  seq : Nat
deriving DecidableEq

/-- The `mentionsData.forEach` loop of FullMentions.handleRecord: for every
mention whose `link` is a truthy string starting with `@` or `%`, stage a
put of the sequence under `[link, shortKey]`. -/
def mentionOps (seq : Nat) (shortKey : String) : List Mention → List BatchOp
  | [] => []
  | mn :: rest =>
    match mn.link with
    | some (JsVal.str s) =>
      if s ≠ "" ∧ (s.front = '@' ∨ s.front = '%') then
        ⟨s, shortKey, seq⟩ :: mentionOps seq shortKey rest
      else mentionOps seq shortKey rest
    | _ => mentionOps seq shortKey rest

/-- The `handleRecord` of the FullMentions plugin (src/README.md):
`offsetValue` is `this.offset.value`, the index's own last-processed
boundary.  Returns the list of batch writes the call stages (`this.batch.push`
calls); the early `return`s stage nothing. -/
def handleRecord (offsetValue : Nat) (record : IndexRecord) (seq : Nat) : List BatchOp :=
  if record.offset < offsetValue then []
  else
    match record.value with
    | none => []
    | some buf =>
      match buf.mentionsField with
      | MentionsField.missing => []
      | MentionsField.notArray => []
      | MentionsField.arr xs =>
        mentionOps seq ((buf.keyStr.drop 1).take 9) xs

/-!  Concrete example values, used by the witness theorems below. -/

/-- Example unbox function that can decrypt nothing. -/
def exUnbox : String → Option String := fun _ => none

/-- Example unbox function that decrypts the box `ct` to the plaintext `pt`. -/
def exUnboxCt : String → Option String := fun s => if s = "ct" then some "pt" else none

/-- Example empty database: empty log, index watermark 0, no latest entries. -/
def exDb0 : Db := ⟨[], 0, []⟩

/-- Example chain-initial message from author `a`. -/
def exMsg : Msg := ⟨"a", 1, none, 0, Content.plain "x", true, none⟩

/-- Example message with an invalid signature. -/
def exBadMsg : Msg := ⟨"b", 1, none, 0, Content.plain "z", false, none⟩

/-- Example out-of-order message from author `c` whose sequence-1 predecessor
was never seen. -/
def exOooMsg : Msg := ⟨"c", 5, some "%prev", 3, Content.plain "w", true, none⟩

/-- Example encrypted message (string content). -/
def exCipherMsg : Msg := ⟨"a", 1, none, 0, Content.cipher "ct", true, none⟩

/-- Example FeedState for author `a` after `exMsg`. -/
def exFs : FeedState := ⟨some (getId exMsg), 0, 1, []⟩

/-- Example ValidationState knowing author `a`. -/
def exState1 : ValidationState := ⟨[("a", exFs)], []⟩

/-- Example database whose single record is `exMsg`, fully indexed. -/
def exDbIndexed : Db := ⟨[⟨getId exMsg, exMsg, false⟩], 1, ["a"]⟩

/-!  Helper lemmas shared by the claim proofs. -/

/-- Find over a list extends find over any of its initial segments. -/
theorem find?_of_take {α : Type} (p : α → Bool) (l : List α) (n : Nat) (x : α)
    (h : (l.take n).find? p = some x) : l.find? p = some x := by
  have h2 : l.find? p = ((l.take n).find? p).or ((l.drop n).find? p) := by
    conv_lhs => rw [← List.take_append_drop n l]
    exact List.find?_append
  rw [h2, h]
  rfl

/-- Element-wise description of `markDeleted`: only the targeted sequence
slot gets its tombstone bit set. -/
theorem markDeleted_get? (l : List LogRecord) (s i : Nat) :
    (markDeleted l s).get? i =
      if i = s then (l.get? i).map (fun r => { r with deleted := true })
      else l.get? i := by
  induction l generalizing s i with
  | nil => simp [markDeleted]
  | cons r rs ih =>
    cases s with
    | zero =>
      cases i with
      | zero => simp [markDeleted]
      | succ j => simp [markDeleted]
    | succ t =>
      cases i with
      | zero => simp [markDeleted]
      | succ j => simpa [markDeleted] using ih t j

/-- Characterization of the strict append transition for a KNOWN author. -/
theorem append_known_spec (s : ValidationState) (m : Msg) (fs : FeedState)
    (h : lookupFeed s m.author = some fs) :
    validate.append s m =
      if m.sequence ≠ fs.sequence + 1 then (s, some ValidationError.SequenceGap)
      else if m.previous ≠ fs.id then (s, some ValidationError.PreviousMismatch)
      else if m.timestamp < fs.timestamp then (s, some ValidationError.TimestampRegression)
      else if ¬ m.signatureValid then (s, some ValidationError.BadSignature)
      else (setFeed s m.author ⟨some (getId m), m.timestamp, m.sequence, []⟩, none) := by
  unfold validate.append
  rw [h]

/-- A failed strict append leaves the validation state exactly as it was. -/
theorem append_fail_frame (s : ValidationState) (m : Msg) (e : ValidationError)
    (h : (validate.append s m).2 = some e) : (validate.append s m).1 = s := by
  revert h
  unfold validate.append
  cases lookupFeed s m.author <;> dsimp only <;>
    split_ifs <;> intro h <;> first
      | rfl
      | simp at h

/-- After overwriting the entry for a present author, the lookup finds the
new FeedState. -/
theorem find?_map_set (l : List (String × FeedState)) (a : String) (fs : FeedState)
    (h : (l.find? (fun p => p.1 == a)).isSome) :
    (l.map (fun p => if p.1 == a then (a, fs) else p)).find? (fun p => p.1 == a) =
      some (a, fs) := by
  induction l with
  | nil => simp at h
  | cons x xs ih =>
    rw [List.map_cons]
    by_cases hx : (x.1 == a) = true
    · rw [if_pos hx]
      exact List.find?_cons_of_pos _ (by simp)
    · rw [if_neg hx]
      rw [@List.find?_cons_of_neg (String × FeedState) (fun q => q.1 == a) x
        (xs.map (fun p => if p.1 == a then (a, fs) else p)) hx]
      rw [@List.find?_cons_of_neg (String × FeedState) (fun q => q.1 == a) x xs hx] at h
      exact ih h

/-- Assigning a FeedState makes the author KNOWN with exactly that state. -/
theorem lookupFeed_setFeed (s : ValidationState) (a : String) (fs : FeedState) :
    lookupFeed (setFeed s a fs) a = some fs := by
  unfold setFeed lookupFeed
  by_cases h : (s.feeds.find? (fun p => p.1 == a)).isSome
  · rw [if_pos h]
    dsimp only
    rw [find?_map_set s.feeds a fs h]
    rfl
  · rw [if_neg h]
    dsimp only
    have hn : s.feeds.find? (fun p => p.1 == a) = none := by
      cases hf : s.feeds.find? (fun p => p.1 == a) with
      | none => rfl
      | some v => rw [hf] at h; simp at h
    rw [List.find?_append, hn]
    simp

/-- Per-record deletion only touches the log records, never the base-index
latest entries or the watermark. -/
theorem del_frame (db : Db) (k : String) :
    (del db k).1.latestAuthors = db.latestAuthors
    ∧ (del db k).1.indexedCount = db.indexedCount := by
  unfold del
  cases db.keyToSeq k <;> simp

/-- Sequential deletion of a batch of keys only touches the log records. -/
theorem delKeys_frame (ks : List String) (db : Db) :
    (delKeys db ks).1.latestAuthors = db.latestAuthors
    ∧ (delKeys db ks).1.indexedCount = db.indexedCount := by
  induction ks generalizing db with
  | nil => simp [delKeys]
  | cons k ks ih =>
    unfold delKeys
    cases hd : del db k with
    | mk db2 e =>
      have hf := del_frame db k
      rw [hd] at hf
      cases e with
      | some err => exact hf
      | none =>
        dsimp only
        refine ⟨?_, ?_⟩
        · rw [(ih db2).1]
          exact hf.1
        · rw [(ih db2).2]
          exact hf.2

/-- The commit phase appends exactly the transformed records of the batch. -/
theorem commitBatch_spec (unbox : String → Option String) (msgs : List Msg) (db : Db) :
    commitBatch unbox db msgs =
      { db with records := db.records ++
          msgs.map (fun m => ⟨getId m, unboxTransform unbox m, false⟩) } := by
  induction msgs generalizing db with
  | nil => simp [commitBatch]
  | cons m ms ih =>
    unfold commitBatch at ih ⊢
    rw [List.foldl_cons, ih]
    simp

/-!  Claim theorems. -/

/-- Claim C10: for every record and sequence passed to the full-mentions
index's handleRecord, if the record's offset is below the index's own
last-processed boundary, or the record's content has been tombstoned (absent
value buffer), handleRecord stages no batch writes and raises no error (it
is a total function returning the empty batch for such records). -/
theorem fullMentions_handleRecord_skips (offsetValue : Nat) (record : IndexRecord)
    (seq : Nat) (h : record.offset < offsetValue ∨ record.value = none) :
    handleRecord offsetValue record seq = [] := by
  unfold handleRecord
  rcases h with h | h
  · rw [if_pos h]
  · by_cases h2 : record.offset < offsetValue
    · rw [if_pos h2]
    · rw [if_neg h2, h]

/-- Witness for C10: a record below the boundary that would otherwise stage
a mention write is a no-op for the index. -/
theorem fullMentions_handleRecord_skips_witness :
    handleRecord 5 ⟨3, some ⟨"%key", MentionsField.arr [⟨some (JsVal.str "@x")⟩]⟩⟩ 7 = [] :=
  fullMentions_handleRecord_skips 5
    ⟨3, some ⟨"%key", MentionsField.arr [⟨some (JsVal.str "@x")⟩]⟩⟩ 7
    (Or.inl (by decide))

/-- Claim C9: del fails with NotFound and leaves the log unmutated when the
base index cannot resolve the identity to a log sequence; otherwise it
succeeds and tombstones exactly that sequence, leaving every other record
unchanged. -/
theorem del_notfound_or_tombstone (db : Db) (key : String) :
    (db.keyToSeq key = none → del db key = (db, some StorageError.NotFound))
    ∧ (∀ s, db.keyToSeq key = some s →
        (del db key).2 = none ∧
        ∀ i, (del db key).1.records.get? i =
          if i = s then (db.records.get? i).map (fun r => { r with deleted := true })
          else db.records.get? i) := by
  constructor
  · intro h
    unfold del
    rw [h]
  · intro s h
    unfold del
    rw [h]
    exact ⟨rfl, fun i => markDeleted_get? db.records s i⟩

/-- Witness for C9: an identity the index has not processed yields NotFound
with the database untouched. -/
theorem del_notfound_or_tombstone_witness :
    del exDb0 "%missing" = (exDb0, some StorageError.NotFound) :=
  (del_notfound_or_tombstone exDb0 "%missing").1 (by decide)

/-- Claim C7: for a message not already stored whose content is a ciphertext
string, add stores the decrypted plaintext as content with the original
ciphertext kept in meta tagged private when the local key can unbox it, and
stores the ciphertext as-is (proceeding with the append, not an error) when
unboxing fails. -/
theorem add_decryption_at_rest (unbox : String → Option String) (db : Db) (m : Msg)
    (ct : String) (hnew : db.getDataFromKey (getId m) = none)
    (hct : m.content = Content.cipher ct) :
    (∀ pt, unbox ct = some pt →
      add unbox db m =
        ({ db with records := db.records ++
            [⟨getId m,
              { m with content := Content.plain pt, meta := some ⟨"true", ct⟩ }, false⟩] },
         { m with content := Content.plain pt, meta := some ⟨"true", ct⟩ }))
    ∧ (unbox ct = none →
      add unbox db m =
        ({ db with records := db.records ++ [⟨getId m, m, false⟩] }, m)) := by
  constructor
  · intro pt hu
    unfold add
    dsimp only
    rw [hnew]
    unfold unboxTransform
    rw [hct]
    dsimp only
    rw [hu]
  · intro hu
    unfold add
    dsimp only
    rw [hnew]
    unfold unboxTransform
    rw [hct]
    dsimp only
    rw [hu]

/-- Witness for C7: a decryptable box is stored decrypted with the
ciphertext in meta, applying the claim theorem at a concrete message. -/
theorem add_decryption_at_rest_witness :
    add exUnboxCt exDb0 exCipherMsg =
      ({ exDb0 with records := exDb0.records ++
          [⟨getId exCipherMsg,
            { exCipherMsg with content := Content.plain "pt", meta := some ⟨"true", "ct"⟩ },
            false⟩] },
       { exCipherMsg with content := Content.plain "pt", meta := some ⟨"true", "ct"⟩ }) :=
  (add_decryption_at_rest exUnboxCt exDb0 exCipherMsg "ct" (by decide) (by decide)).1
    "pt" (by decide)

/-- Claim C8: validateAndAddOOO validates against a fresh throwaway
validation state only: the shared ValidationState is returned unchanged
whether validation succeeds or fails, and the rest of the outcome does not
depend on the shared state at all. -/
theorem validateAndAddOOO_frame (unbox : String → Option String)
    (s t : ValidationState) (db : Db) (m : Msg) :
    (validateAndAddOOO unbox s db m).1 = s
    ∧ (validateAndAddOOO unbox s db m).2 = (validateAndAddOOO unbox t db m).2 := by
  unfold validateAndAddOOO
  cases h : validate.appendOOO validate.initial m with
  | mk s2 e => cases e <;> exact ⟨rfl, rfl⟩

/-- Claim C1 (addTransaction is modelled from the spec; the function is
absent from the sources under src/): addTransaction returns no error exactly
when every validation in both batches succeeds; on any validation error the
log is left untouched; on success every record of both batches is appended
to the log — all-or-none commit. -/
theorem addTransaction_allOrNone (unbox : String → Option String) (s : ValidationState)
    (db : Db) (ordered ooo : List Msg) :
    ((addTransaction unbox s db ordered ooo).2.2 = none ↔
      (validateOrderedBatch s ordered).2 = none ∧ validateOOOBatch ooo = none)
    ∧ (∀ e, (addTransaction unbox s db ordered ooo).2.2 = some e →
        (addTransaction unbox s db ordered ooo).2.1 = db)
    ∧ ((addTransaction unbox s db ordered ooo).2.2 = none →
        (addTransaction unbox s db ordered ooo).2.1.records =
          db.records ++ (ordered ++ ooo).map
            (fun m => ⟨getId m, unboxTransform unbox m, false⟩)) := by
  unfold addTransaction
  cases h1 : validateOrderedBatch s ordered with
  | mk scratch e1 =>
    cases e1 with
    | some e =>
      refine ⟨by simp, fun e2 h => rfl, by simp⟩
    | none =>
      cases h2 : validateOOOBatch ooo with
      | some e =>
        refine ⟨by simp, fun e2 h => rfl, by simp⟩
      | none =>
        refine ⟨by simp, fun e2 h => by simp at h, ?_⟩
        intro _
        rw [commitBatch_spec]

/-- Claim C3: for a candidate message from a KNOWN author whose strict
append validation fails, validateAndAdd surfaces the corresponding
ValidationError, does not call add (the database is untouched) and leaves
the ValidationState — in particular the author's FeedState — unmodified
(the JS error slot is the returned error component); moreover the surfaced
error corresponds to the failure cause: duplicate or gapped sequence,
previous mismatch, timestamp regression, or bad signature. -/
theorem validateAndAdd_known_failure_atomic (unbox : String → Option String)
    (s : ValidationState) (db : Db) (m : Msg) (fs : FeedState) (e : ValidationError)
    (hknown : lookupFeed s m.author = some fs)
    (hfail : (validate.append s m).2 = some e) :
    validateAndAdd unbox s db m = (s, db, Except.error e)
    ∧ (m.sequence ≠ fs.sequence + 1 → e = ValidationError.SequenceGap)
    ∧ (m.sequence = fs.sequence + 1 → m.previous ≠ fs.id →
        e = ValidationError.PreviousMismatch)
    ∧ (m.sequence = fs.sequence + 1 → m.previous = fs.id → m.timestamp < fs.timestamp →
        e = ValidationError.TimestampRegression)
    ∧ (m.sequence = fs.sequence + 1 → m.previous = fs.id → fs.timestamp ≤ m.timestamp →
        ¬ m.signatureValid → e = ValidationError.BadSignature) := by
  have hspec := hfail
  rw [append_known_spec s m fs hknown] at hspec
  refine ⟨?_, ?_, ?_, ?_, ?_⟩
  · have hframe := append_fail_frame s m e hfail
    unfold validateAndAdd
    dsimp only
    rw [hknown]
    rw [if_pos (by simp)]
    unfold appendPath
    cases hv : validate.append s m with
    | mk s2 e2 =>
      rw [hv] at hfail hframe
      dsimp only at hfail hframe
      subst hfail
      subst hframe
      rfl
  · intro h1
    rw [if_pos h1] at hspec
    exact (Option.some.inj hspec).symm
  · intro h1 h2
    rw [if_neg (not_not_intro h1), if_pos h2] at hspec
    exact (Option.some.inj hspec).symm
  · intro h1 h2 h3
    rw [if_neg (not_not_intro h1), if_neg (not_not_intro h2), if_pos h3] at hspec
    exact (Option.some.inj hspec).symm
  · intro h1 h2 h3 h4
    rw [if_neg (not_not_intro h1), if_neg (not_not_intro h2),
      if_neg (Nat.not_lt.mpr h3), if_pos h4] at hspec
    exact (Option.some.inj hspec).symm

/-- Witness for C3: a duplicate-sequence message from the known author `a`
is rejected with SequenceGap while state and database stay as they were. -/
theorem validateAndAdd_known_failure_witness :
    validateAndAdd exUnbox exState1 exDb0 exMsg =
      (exState1, exDb0, Except.error ValidationError.SequenceGap) :=
  (validateAndAdd_known_failure_atomic exUnbox exState1 exDb0 exMsg exFs
    ValidationError.SequenceGap (by decide) (by decide)).1

/-- Claim C4: admitting a message through the out-of-order path never
promotes a feed whose sequence-1 message was never seen into KNOWN
continuity-tracked state; and once an author is KNOWN (present in
state.feeds), validateAndAdd routes its messages through the strict append
path — never through appendOutOfOrder — and the author remains KNOWN
afterwards, so every subsequent message keeps taking the strict path. -/
theorem ooo_no_promotion_known_strict :
    (∀ s m, lookupFeed s m.author = none → m.sequence ≠ 1 →
        lookupFeed (validate.appendOOO s m).1 m.author = none)
    ∧ (∀ unbox s db m, (lookupFeed s m.author).isSome →
        validateAndAdd unbox s db m = appendPath unbox s db m)
    ∧ (∀ unbox s db m, (lookupFeed s m.author).isSome →
        (lookupFeed (validateAndAdd unbox s db m).1 m.author).isSome) := by
  have known_route : ∀ (unbox : String → Option String) s db m,
      (lookupFeed s m.author).isSome →
      validateAndAdd unbox s db m = appendPath unbox s db m := by
    intro unbox s db m hknown
    unfold validateAndAdd
    dsimp only
    rw [if_pos hknown]
  refine ⟨?_, known_route, ?_⟩
  · intro s m hnone hseq
    unfold validate.appendOOO
    split_ifs with h1 h2 h3 h4 <;>
      first
        | exact hnone
        | exact absurd h4.1 hseq
  · intro unbox s db m hknown
    obtain ⟨fs, hfs⟩ := Option.isSome_iff_exists.mp hknown
    rw [known_route unbox s db m hknown]
    unfold appendPath
    cases hv : validate.append s m with
    | mk s2 e2 =>
      cases e2 with
      | some e =>
        have hframe := append_fail_frame s m e (by rw [hv])
        rw [hv] at hframe
        dsimp only at hframe
        dsimp only
        rw [hframe]
        exact hknown
      | none =>
        rw [append_known_spec s m fs hfs] at hv
        split_ifs at hv <;>
          first
            | (have hs2 : s2 =
                  setFeed s m.author ⟨some (getId m), m.timestamp, m.sequence, []⟩ := by
                 have h5 := congrArg Prod.fst hv
                 simpa using h5.symm
               dsimp only
               rw [hs2, lookupFeed_setFeed]
               rfl)
            | simp at hv

/-- Witness for C4: an out-of-order message with sequence 5 from an unknown
author leaves that author UNKNOWN. -/
theorem ooo_no_promotion_known_strict_witness :
    lookupFeed (validate.appendOOO validate.initial exOooMsg).1 exOooMsg.author = none :=
  ooo_no_promotion_known_strict.1 validate.initial exOooMsg (by decide) (by decide)

/-- Witness for C1: a transaction whose OOO batch contains a message with a
bad signature aborts with the log untouched. -/
theorem addTransaction_allOrNone_witness :
    (addTransaction exUnbox validate.initial exDb0 [] [exBadMsg]).2.1 = exDb0 :=
  (addTransaction_allOrNone exUnbox validate.initial exDb0 [] [exBadMsg]).2.1
    ValidationError.BadSignature (by decide)

/-- Counterexample to claim C2: the base index is lazy (the comment at
src/db.js lines 49-56 documents exactly this race), so calling add twice
with the byte-identical message before the index has incorporated the first
append creates two log records, not exactly one. -/
theorem add_twice_duplicates :
    ((add exUnbox (add exUnbox exDb0 exMsg).1 exMsg).1).records.length = 2 := by
  decide

/-- Claim C2 amended: when the base index already resolves identity(m) to a
stored record, add returns that existing stored value and performs no log
append; and calling add twice with byte-identical, not-yet-stored input
returns the same stored message both times and creates exactly one log
record, provided the base index has incorporated the first append before the
second call. -/
theorem add_idempotent_amended (unbox : String → Option String) (db : Db) (m : Msg) :
    (∀ v, db.getDataFromKey (getId m) = some v → add unbox db m = (db, v))
    ∧ ((∀ r ∈ db.records, r.key ≠ getId m) →
        add unbox ((add unbox db m).1.catchUp) m =
          (((add unbox db m).1.catchUp), (add unbox db m).2)
        ∧ ((add unbox db m).1.catchUp).records.length = db.records.length + 1) := by
  constructor
  · intro v h
    unfold add
    dsimp only
    rw [h]
  · intro h
    have h0 : db.getDataFromKey (getId m) = none := by
      unfold Db.getDataFromKey
      have hn : (db.records.take db.indexedCount).find?
          (fun r => r.key == getId m && !r.deleted) = none := by
        rw [List.find?_eq_none]
        intro x hx
        have hxr := h x (List.mem_of_mem_take hx)
        simp [hxr]
      rw [hn]
      rfl
    have hadd : add unbox db m =
        ({ db with records := db.records ++ [⟨getId m, unboxTransform unbox m, false⟩] },
         unboxTransform unbox m) := by
      unfold add
      dsimp only
      rw [h0]
    have hfull : db.records.find? (fun r => r.key == getId m && !r.deleted) = none := by
      rw [List.find?_eq_none]
      intro x hx
      simp [h x hx]
    have h1 : ((add unbox db m).1.catchUp).getDataFromKey (getId m) =
        some (unboxTransform unbox m) := by
      rw [hadd]
      unfold Db.catchUp Db.getDataFromKey
      dsimp only
      rw [List.take_length, List.find?_append, hfull]
      simp
    constructor
    · have h2 : (add unbox db m).2 = unboxTransform unbox m := by rw [hadd]
      rw [h2]
      generalize hg : (add unbox db m).1.catchUp = db2 at h1
      unfold add
      dsimp only
      rw [h1]
    · rw [hadd]
      unfold Db.catchUp
      simp

/-- Witness for the amended C2: in the empty database, add exMsg, let the
index catch up, add exMsg again — the second call is a no-op returning the
first stored message, and the log holds exactly one record. -/
theorem add_idempotent_amended_witness :
    (add exUnbox ((add exUnbox exDb0 exMsg).1.catchUp) exMsg =
      (((add exUnbox exDb0 exMsg).1.catchUp), (add exUnbox exDb0 exMsg).2))
    ∧ ((add exUnbox exDb0 exMsg).1.catchUp).records.length = exDb0.records.length + 1 :=
  (add_idempotent_amended exUnbox exDb0 exMsg).2 (by intro r hr; simp [exDb0] at hr)

/-- Any read performed by the waiting listener loop is the index lookup at
full catch-up. -/
theorem getSyncAwait_mem (db : Db) (id : String) (events : List Nat) (r : Option Msg)
    (h : r ∈ getSyncAwait db id events) :
    r = get { db with indexedCount := db.records.length } id := by
  induction events with
  | nil => simp [getSyncAwait] at h
  | cons w ws ih =>
    unfold getSyncAwait at h
    by_cases hw : w = db.records.length
    · rw [if_pos hw] at h
      rw [List.mem_singleton] at h
      rw [h, hw]
    · rw [if_neg hw] at h
      exact ih h

/-- The waiting listener loop performs at most one read. -/
theorem getSyncAwait_len (db : Db) (id : String) (events : List Nat) :
    (getSyncAwait db id events).length ≤ 1 := by
  induction events with
  | nil => simp [getSyncAwait]
  | cons w ws ih =>
    unfold getSyncAwait
    by_cases hw : w = db.records.length
    · rw [if_pos hw]
      simp
    · rw [if_neg hw]
      exact ih

/-- The waiting listener loop reads exactly once when some watermark event
reaches the log's last sequence. -/
theorem getSyncAwait_len_of_mem (db : Db) (id : String) (events : List Nat)
    (h : db.records.length ∈ events) : (getSyncAwait db id events).length = 1 := by
  induction events with
  | nil => simp at h
  | cons w ws ih =>
    unfold getSyncAwait
    by_cases hw : w = db.records.length
    · rw [if_pos hw]
      rfl
    · rw [if_neg hw]
      apply ih
      cases List.mem_cons.mp h with
      | inl h2 => exact absurd h2.symm hw
      | inr h2 => exact h2

/-- Any read performed by a getSync run — immediate or deferred — is the
index lookup at full catch-up. -/
theorem getSyncReads_mem (db : Db) (id : String) (events : List Nat) (r : Option Msg)
    (h : r ∈ getSyncReads db id events) :
    r = get { db with indexedCount := db.records.length } id := by
  unfold getSyncReads at h
  by_cases h0 : db.indexedCount = db.records.length
  · rw [if_pos h0] at h
    rw [List.mem_singleton] at h
    have hdb : ({ db with indexedCount := db.records.length } : Db) = db := by
      cases db
      dsimp only at h0 ⊢
      rw [h0]
    rw [h, hdb]
  · rw [if_neg h0] at h
    exact getSyncAwait_mem db id events r h

/-- A successful add always leaves a live (non-tombstoned) record carrying
the message's identity in the log: either the freshly appended one or the
already-stored one the index resolved. -/
theorem add_leaves_live_record (unbox : String → Option String) (db : Db) (m : Msg) :
    ∃ rec ∈ (add unbox db m).1.records, rec.key = getId m ∧ rec.deleted = false := by
  unfold add
  dsimp only
  cases hf : db.getDataFromKey (getId m) with
  | none =>
    refine ⟨⟨getId m, unboxTransform unbox m, false⟩, ?_, rfl, rfl⟩
    simp
  | some v =>
    unfold Db.getDataFromKey at hf
    cases hfind : (db.records.take db.indexedCount).find?
        (fun r => r.key == getId m && !r.deleted) with
    | none => rw [hfind] at hf; simp at hf
    | some rec =>
      have hmem : rec ∈ db.records :=
        List.mem_of_mem_take (List.mem_of_find?_eq_some hfind)
      have hp := List.find?_some hfind
      rw [Bool.and_eq_true] at hp
      refine ⟨rec, hmem, eq_of_beq hp.1, ?_⟩
      simpa using hp.2

/-- Claim C5: getSync reads immediately when the base index watermark equals
the log's last sequence; otherwise the registered listener performs no read
until a watermark-change event reaches equality, where it deregisters and
reads exactly once; consequently a getSync for identity(m) issued after a
successful add of m never returns NotFound, whatever the indexing delay. -/
theorem getSync_barrier (db : Db) (id : String) (events : List Nat) :
    (db.indexedCount = db.records.length → getSyncReads db id events = [get db id])
    ∧ (getSyncReads db id events).length ≤ 1
    ∧ (db.records.length ∈ events → (getSyncReads db id events).length = 1)
    ∧ (∀ unbox m r, r ∈ getSyncReads (add unbox db m).1 (getId m) events →
        r.isSome) := by
  refine ⟨?_, ?_, ?_, ?_⟩
  · intro h
    unfold getSyncReads
    rw [if_pos h]
  · unfold getSyncReads
    by_cases h : db.indexedCount = db.records.length
    · rw [if_pos h]
      simp
    · rw [if_neg h]
      exact getSyncAwait_len db id events
  · intro hm
    unfold getSyncReads
    by_cases h : db.indexedCount = db.records.length
    · rw [if_pos h]
      rfl
    · rw [if_neg h]
      exact getSyncAwait_len_of_mem db id events hm
  · intro unbox m r hr
    obtain ⟨rec, hmem, hkey, hdel⟩ := add_leaves_live_record unbox db m
    have hread := getSyncReads_mem (add unbox db m).1 (getId m) events r hr
    rw [hread]
    unfold get Db.getDataFromKey
    dsimp only
    rw [List.take_length, Option.isSome_map']
    rw [List.find?_isSome]
    exact ⟨rec, hmem, by simp [hkey, hdel]⟩

/-- Witness for C5: with the index caught up, getSync reads immediately. -/
theorem getSync_barrier_witness :
    getSyncReads exDbIndexed (getId exMsg) [] = [get exDbIndexed (getId exMsg)] :=
  (getSync_barrier exDbIndexed (getId exMsg) []).1 (by decide)

/-- Claim C6: deleteFeed reports success exactly when every per-record
deletion succeeded; on any individual failure the error is reported and the
author's FeedState and base-index latest entry are left intact (though
already-processed records may be tombstoned); on success both entries are
removed. -/
theorem deleteFeed_all_or_nothing (s : ValidationState) (db : Db) (feedId : String) :
    ((deleteFeed s db feedId).2.2 = (delKeys db (authorKeys db feedId)).2)
    ∧ (∀ e, (deleteFeed s db feedId).2.2 = some e →
        (deleteFeed s db feedId).1 = s
        ∧ (deleteFeed s db feedId).2.1.latestAuthors = db.latestAuthors)
    ∧ ((deleteFeed s db feedId).2.2 = none →
        lookupFeed (deleteFeed s db feedId).1 feedId = none
        ∧ feedId ∉ (deleteFeed s db feedId).2.1.latestAuthors) := by
  unfold deleteFeed
  cases hk : delKeys db (authorKeys db feedId) with
  | mk db2 err =>
    have hla := delKeys_frame (authorKeys db feedId) db
    rw [hk] at hla
    cases err with
    | some e =>
      exact ⟨rfl, fun e2 h => ⟨rfl, hla.1⟩, fun h => by simp at h⟩
    | none =>
      refine ⟨rfl, fun e2 h => by simp at h, fun h => ⟨?_, ?_⟩⟩
      · unfold lookupFeed
        dsimp only
        rw [List.find?_eq_none.mpr ?_]
        · rfl
        intro x hx
        have hne := (List.mem_filter.mp hx).2
        simpa using hne
      · intro hmem
        have hne := (List.mem_filter.mp hmem).2
        simp at hne

/-- Witness for C6: deleting an author with no records succeeds and removes
(the absent) FeedState and latest entries. -/
theorem deleteFeed_all_or_nothing_witness :
    lookupFeed (deleteFeed validate.initial exDb0 "a").1 "a" = none
    ∧ "a" ∉ (deleteFeed validate.initial exDb0 "a").2.1.latestAuthors :=
  (deleteFeed_all_or_nothing validate.initial exDb0 "a").2.2 (by decide)

end SsbDb2
